import Mathlib

/-!
# The generic option pattern of package `create`

A shallow embedding of `create.go` (the interface `Builder` and the generic
function `New`) and of the `Greeting` example of `create_test.go`
(`GreetingBuilder`, its methods `Default` and `Build`, and `WithNoun`).

Go code is stateful: an option is a `func(B)` that returns nothing and acts
only by what it writes, as a rule through the builder handle it receives.
Calls are therefore embedded as store-passing functions `Exec σ α`: a call runs
on a store `σ` and either returns a value together with the store it leaves, or
does not return (a run-time panic).  For the example the store is the heap of
`GreetingBuilder` cells and a `*GreetingBuilder` is `nil` or an address.

`New` is embedded twice: over a fixed list of options, which is the call
`New(o1, ..., on)`, and, as `NewShared`, over a slice whose elements are in the
store, which is the call `New(xs...)`; the two agree on every slice that is not
written to while `New` runs (`NewShared_eq_New`).
-/

namespace Create

/-! ## Go values and calls -/

/-- The zero value of a Go type: what `*new(B)` evaluates to. -/
class ZeroValue (α : Type) where
  zeroValue : α

/-- Ways in which a Go call fails to return. -/
inductive Panic where
  /-- The run-time error of reading or writing through a nil pointer. -/
  | nilDereference
  /-- An address that no allocation produced; Go never creates one. -/
  | invalidAddress
  /-- Any other `panic(msg)` raised by user code. -/
  | other (msg : String)
deriving DecidableEq, Repr

/-- The outcome of a call: the returned value with the store left behind, or a panic. -/
inductive Outcome (σ α : Type) where
  | returns (value : α) (store : σ)
  | panics (p : Panic)
deriving DecidableEq, Repr

/-- A Go call that returns an `α`, run on a store `σ`. -/
abbrev Exec (σ α : Type) := σ → Outcome σ α

/-- A Go slice is either `nil` or has a (possibly empty) backing sequence.
`New()` passes `nil`; `New(xs...)` passes `xs` itself; `New(o1, o2)` passes a
fresh non-nil slice. -/
inductive Slice (α : Type) where
  | nil
  | lit (elements : List α)
deriving DecidableEq, Repr

/-- The elements a `range` loop visits, in order: none for `nil`. -/
def Slice.toList {α : Type} : Slice α → List α
  | .nil => []
  | .lit elements => elements

/-! ## `create.go` -/

/-- The interface `Builder[T, B]`: `Default() B` and `Build() (T, error)`, both
with receiver of type `B`.  The Go `error` result is `none` for `nil` and
`some e` for the error value `e`. -/
structure Builder (σ T B E : Type) where
  Default : B → Exec σ B
  Build : B → Exec σ (T × Option E)

/-- The loop `for _, option := range options { option(b) }` of `New`. -/
def applyOptions {σ B : Type} (b : B) : List (B → Exec σ Unit) → Exec σ Unit
  | [], s => .returns () s
  | option :: rest, s =>
    match option b s with
    | .panics p => .panics p
    | .returns _ s1 => applyOptions b rest s1

/-- The function `New[T, B, O](options ...O) (T, error)`:
`b := (*new(B)).Default()`, then the loop over `options`, then `return b.Build()`. -/
def New {σ T B E : Type} [ZeroValue B] (impl : Builder σ T B E)
    (options : Slice (B → Exec σ Unit)) : Exec σ (T × Option E) := fun s =>
  match impl.Default ZeroValue.zeroValue s with
  | .panics p => .panics p
  | .returns b s1 =>
    match applyOptions b options.toList s1 with
    | .panics p => .panics p
    | .returns _ s2 => impl.Build b s2

/-! ## The `Greeting` example of `create_test.go` -/

/-- The type `Greeting string`. -/
abbrev Greeting := String

/-- The struct `GreetingBuilder` with its single field `noun`. -/
structure GreetingBuilder where
  noun : String
deriving DecidableEq, Repr

/-- The heap of allocated `GreetingBuilder` cells; an address is an index. -/
abbrev Heap := List GreetingBuilder

/-- A value of type `*GreetingBuilder`. -/
inductive Ptr where
  | nil
  | addr (a : Nat)
deriving DecidableEq, Repr

instance : ZeroValue Ptr := ⟨Ptr.nil⟩

instance : ZeroValue Greeting := ⟨""⟩

/-- The type `GreetingOption func(*GreetingBuilder)`. -/
abbrev GreetingOption := Ptr → Exec Heap Unit

/-- The method `func (*GreetingBuilder) Default() *GreetingBuilder`: the receiver is
unnamed and unused; a new cell with noun `"world"` is allocated and its address returned. -/
def GreetingBuilder.Default (_ : Ptr) : Exec Heap Ptr := fun h =>
  .returns (Ptr.addr h.length) (h ++ [GreetingBuilder.mk "world"])

/-- The assignment `b.noun = noun` through the pointer `b`. -/
def assignNoun (b : Ptr) (noun : String) : Exec Heap Unit := fun h =>
  match b with
  | .nil => .panics .nilDereference
  | .addr a =>
    match h[a]? with
    | none => .panics .invalidAddress
    | some _ => .returns () (h.set a (GreetingBuilder.mk noun))

/-- The function `WithNoun(noun string) GreetingOption`. -/
def WithNoun (noun : String) : GreetingOption := fun b => assignNoun b noun

/-- The option literal of `TestNewOptionsFunc`: `func(b *GreetingBuilder) { b.noun = "func" }`. -/
def funcLiteral : GreetingOption := fun b => assignNoun b "func"

/-- The method `func (b *GreetingBuilder) Build() (Greeting, error)`; the error
`fmt.Errorf("empty noun")` is represented by its message. -/
def GreetingBuilder.Build (b : Ptr) : Exec Heap (Greeting × Option String) := fun h =>
  match b with
  | .nil => .panics .nilDereference
  | .addr a =>
    match h[a]? with
    | none => .panics .invalidAddress
    | some c =>
      if c.noun = "" then .returns ("", some "empty noun") h
      else .returns ("Hello " ++ c.noun ++ "!", none) h

/-! ## A second implementation of `Builder`

`New` is generic, so its callers may pass any implementation of the interface:
```go
type Draft string
func (Draft) Default() Draft            { return "draft" }
func (d Draft) Build() (string, error)  { return string(d), errors.New("never valid") }
```
The builder is held by value, so no store is involved. -/

instance : ZeroValue Unit := ⟨()⟩

/-- The implementation of `create.Builder[string, Draft]` by the type `Draft` above. -/
def draftBuilder : Builder Unit String String String where
  Default := fun _ s => .returns "draft" s
  Build := fun d s => .returns (d, some "never valid") s

/-- The implementation of `create.Builder[Greeting, *GreetingBuilder]` by `*GreetingBuilder`. -/
def greetingBuilder : Builder Heap Greeting Ptr String where
  Default := GreetingBuilder.Default
  Build := GreetingBuilder.Build

/-- The variable `NewGreeting = create.New[Greeting, *GreetingBuilder, GreetingOption]`:
`New` with all three type arguments given. -/
def NewGreeting : Slice GreetingOption → Exec Heap (Greeting × Option String) :=
  New greetingBuilder

/-- An option literal that assigns nothing: `func(*GreetingBuilder) {}`. -/
def noopLiteral : GreetingOption := fun _ h => .returns () h

/-! ## `New` on a slice that the caller still holds

`New(o1, ..., on)` ranges over a slice made for the call, which nothing else
can reach: `New` above, over a fixed list, is that call.  `New(xs...)` ranges
over the caller's own slice, whose elements are in the store, and `range` reads
element `i` only when its turn comes; an option that holds `xs` can replace an
element that has not run yet.  Here the option values are of a type `O` (the
type parameter `O ~func(B)`), `call` is the call of such a value, and
`elements` reads the slice in a store. -/

/-- The loop `for _, option := range options { option(b) }` from index `i`, with
`remaining` elements to go: element `i` is read from the store as it is at
that moment.  The length was fixed when the loop began, so the read finds an
element; no result is invented for a slice that would have shrunk. -/
def rangeOptions {σ B O : Type} (call : O → B → Exec σ Unit) (elements : σ → List O) (b : B) :
    Nat → Nat → Exec σ Unit
  | _, 0, s => .returns () s
  | i, remaining + 1, s =>
    match (elements s)[i]? with
    | none => .panics .invalidAddress
    | some option =>
      match call option b s with
      | .panics p => .panics p
      | .returns _ s1 => rangeOptions call elements b (i + 1) remaining s1

/-- The function `New` called as `New(xs...)`: the slice header, hence its length,
is taken at the call; then `b := (*new(B)).Default()`, the loop, `return b.Build()`. -/
def NewShared {σ T B E O : Type} [ZeroValue B] (impl : Builder σ T B E)
    (call : O → B → Exec σ Unit) (elements : σ → List O) : Exec σ (T × Option E) := fun s =>
  match impl.Default ZeroValue.zeroValue s with
  | .panics p => .panics p
  | .returns b s1 =>
    match rangeOptions call elements b 0 (elements s).length s1 with
    | .panics p => .panics p
    | .returns _ s2 => impl.Build b s2

/-! ### The `Greeting` example with the caller's slice in the store

```go
all := make([]GreetingOption, n)
all[0] = func(*GreetingBuilder) { all[1] = WithNoun("hijacked") }
all[1] = WithNoun("earth")
greeting, err := create.New[Greeting](all[:2]...)
```
-/

/-- The `GreetingOption` values that the caller's array `all` may hold. -/
inductive OptionValue where
  /-- The value `WithNoun(noun)`. -/
  | withNoun (noun : String)
  /-- The literal `func(*GreetingBuilder) { all[i] = WithNoun(noun) }`. -/
  | overwrite (i : Nat) (noun : String)
  /-- The literal `func(*GreetingBuilder) {}`. -/
  | nothing
deriving DecidableEq, Repr

/-- The store of a caller that holds an array of options: the heap of builders
and the elements of the array `all`. -/
structure Memory where
  heap : Heap
  slots : List OptionValue
deriving DecidableEq, Repr

/-- A call that only uses the heap of builders, run on the larger store. -/
def onHeap {α : Type} (x : Exec Heap α) : Exec Memory α := fun m =>
  match x m.heap with
  | .panics p => .panics p
  | .returns a h => .returns a (Memory.mk h m.slots)

/-- The call `option(b)` of an option value. -/
def callOption : OptionValue → Ptr → Exec Memory Unit
  | .withNoun noun, b => onHeap (WithNoun noun b)
  | .overwrite i noun, _ => fun m =>
    if i < m.slots.length then
      .returns () (Memory.mk m.heap (m.slots.set i (OptionValue.withNoun noun)))
    else .panics (.other "index out of range")
  | .nothing, _ => fun m => .returns () m

/-- The implementation `*GreetingBuilder` of `Builder`, run on the larger store. -/
def sharedGreetingBuilder : Builder Memory Greeting Ptr String where
  Default := fun r => onHeap (GreetingBuilder.Default r)
  Build := fun b => onHeap (GreetingBuilder.Build b)

/-! ### Options that are more than an assignment of a constant -/

/-- The literal `func(b *GreetingBuilder) { b.noun = src.noun }`, where `src` is a
builder that an option of an earlier call kept. -/
def copyNounFrom (src : Ptr) : GreetingOption := fun b h =>
  match src with
  | .nil => .panics .nilDereference
  | .addr a =>
    match h[a]? with
    | none => .panics .invalidAddress
    | some c => assignNoun b c.noun h

/-- The literal `func(b *GreetingBuilder) { b.noun += suffix }`. -/
def appendNoun (suffix : String) : GreetingOption := fun b h =>
  match b with
  | .nil => .panics .nilDereference
  | .addr a =>
    match h[a]? with
    | none => .panics .invalidAddress
    | some c => .returns () (h.set a (GreetingBuilder.mk (c.noun ++ suffix)))

/-! ### A builder with two fields

```go
type Letter string
type LetterBuilder struct{ salutation, noun string }
func (*LetterBuilder) Default() *LetterBuilder { return &LetterBuilder{"Hello", "world"} }
func (b *LetterBuilder) Build() (Letter, error) {
	return Letter(b.salutation + " " + b.noun + "!"), nil
}
func WithSalutation(s string) func(*LetterBuilder) {
	return func(b *LetterBuilder) { b.salutation = s }
}
func WithAddressee(n string) func(*LetterBuilder) {
	return func(b *LetterBuilder) { b.noun = n }
}
```
-/

/-- The struct `LetterBuilder`. -/
structure LetterBuilder where
  salutation : String
  noun : String
deriving DecidableEq, Repr

/-- The method `Default` of `*LetterBuilder`. -/
def LetterBuilder.Default (_ : Ptr) : Exec (List LetterBuilder) Ptr := fun h =>
  .returns (Ptr.addr h.length) (h ++ [LetterBuilder.mk "Hello" "world"])

/-- The method `Build` of `*LetterBuilder`. -/
def LetterBuilder.Build (b : Ptr) : Exec (List LetterBuilder) (String × Option String) := fun h =>
  match b with
  | .nil => .panics .nilDereference
  | .addr a =>
    match h[a]? with
    | none => .panics .invalidAddress
    | some c => .returns (c.salutation ++ " " ++ c.noun ++ "!", none) h

/-- The function `WithSalutation`. -/
def WithSalutation (s : String) : Ptr → Exec (List LetterBuilder) Unit := fun b h =>
  match b with
  | .nil => .panics .nilDereference
  | .addr a =>
    match h[a]? with
    | none => .panics .invalidAddress
    | some c => .returns () (h.set a (LetterBuilder.mk s c.noun))

/-- The function `WithAddressee`. -/
def WithAddressee (n : String) : Ptr → Exec (List LetterBuilder) Unit := fun b h =>
  match b with
  | .nil => .panics .nilDereference
  | .addr a =>
    match h[a]? with
    | none => .panics .invalidAddress
    | some c => .returns () (h.set a (LetterBuilder.mk c.salutation n))

/-- The implementation of `create.Builder[Letter, *LetterBuilder]` by `*LetterBuilder`. -/
def letterBuilder : Builder (List LetterBuilder) String Ptr String where
  Default := LetterBuilder.Default
  Build := LetterBuilder.Build

/-! ## Definitions used to state the properties -/

/-- Neither `Default` nor any option of `options` writes to the slice that
`elements` reads: whenever one of them returns, the slice holds what it held. -/
def leavesSlice {σ T B E O : Type} [ZeroValue B] (impl : Builder σ T B E)
    (call : O → B → Exec σ Unit) (elements : σ → List O) (options : List O) : Prop :=
  (∀ s b s1, impl.Default ZeroValue.zeroValue s = .returns b s1 → elements s1 = elements s) ∧
  ∀ option ∈ options, ∀ b s s1, call option b s = .returns () s1 → elements s1 = elements s

/-- The builder that `b` points to in heap `h`, when `b` points to one. -/
def cellOf (b : Ptr) (h : Heap) : Option GreetingBuilder :=
  match b with
  | .nil => none
  | .addr a => h[a]?


/-- The builder handed to `Build` and the store at that moment: the first two
statements of `New`, `b := (*new(B)).Default()` and the loop over `options`. -/
def configured {σ T B E : Type} [ZeroValue B] (impl : Builder σ T B E)
    (options : Slice (B → Exec σ Unit)) : Exec σ B := fun s =>
  match impl.Default ZeroValue.zeroValue s with
  | .panics p => .panics p
  | .returns b s1 =>
    match applyOptions b options.toList s1 with
    | .panics p => .panics p
    | .returns _ s2 => .returns b s2

/-- Running one more option after what has been run so far. -/
def thenApply {σ B : Type} (b : B) (sofar : Outcome σ Unit) (option : B → Exec σ Unit) :
    Outcome σ Unit :=
  match sofar with
  | .panics p => .panics p
  | .returns _ s => option b s

/-- The specification of `New` in its own words: take `Default` of the zero value
of `B`, apply the options one after the other as a left fold over the input
list, and return what `Build` returns on the result. -/
def NewSpec {σ T B E : Type} [ZeroValue B] (impl : Builder σ T B E)
    (options : Slice (B → Exec σ Unit)) : Exec σ (T × Option E) := fun s =>
  match impl.Default ZeroValue.zeroValue s with
  | .panics p => .panics p
  | .returns b s1 =>
    match options.toList.foldl (thenApply b) (.returns () s1) with
    | .panics p => .panics p
    | .returns _ s2 => impl.Build b s2

/-- The noun of the builder that `b` points to in heap `h`, when `b` points to one. -/
def nounOf (b : Ptr) (h : Heap) : Option String :=
  match b with
  | .nil => none
  | .addr a => (h[a]?).map GreetingBuilder.noun

/-- The value a call returned, if it returned. -/
def Outcome.value? {σ α : Type} : Outcome σ α → Option α
  | .returns value _ => some value
  | .panics _ => none

/-- The store a call left behind, if it returned. -/
def Outcome.store? {σ α : Type} : Outcome σ α → Option σ
  | .returns _ store => some store
  | .panics _ => none

/-- What `GreetingBuilder.Build` returns for a builder whose noun is `noun`. -/
def greet (noun : String) : Greeting × Option String :=
  if noun = "" then ("", some "empty noun") else ("Hello " ++ noun ++ "!", none)

/-! ## Lemmas on the generic constructor -/

theorem foldl_thenApply_panics {σ B : Type} (b : B) (p : Panic)
    (options : List (B → Exec σ Unit)) :
    options.foldl (thenApply b) (.panics p) = .panics p := by
  induction options with
  | nil => rfl
  | cons option rest ih => simpa [List.foldl, thenApply] using ih

theorem applyOptions_eq_foldl {σ B : Type} (b : B) (options : List (B → Exec σ Unit)) (s : σ) :
    applyOptions b options s = options.foldl (thenApply b) (.returns () s) := by
  induction options generalizing s with
  | nil => rfl
  | cons option rest ih =>
    simp only [applyOptions, List.foldl, thenApply]
    cases hstep : option b s with
    | panics p => simp [foldl_thenApply_panics]
    | returns u s1 => simpa using ih s1

theorem applyOptions_append {σ B : Type} (b : B) (xs ys : List (B → Exec σ Unit)) (s : σ) :
    applyOptions b (xs ++ ys) s =
      match applyOptions b xs s with
      | .panics p => .panics p
      | .returns _ s1 => applyOptions b ys s1 := by
  induction xs generalizing s with
  | nil => rfl
  | cons option rest ih =>
    simp only [List.cons_append, applyOptions]
    cases hstep : option b s with
    | panics p => rfl
    | returns u s1 => simpa using ih s1

theorem New_eq_Build_configured {σ T B E : Type} [ZeroValue B] (impl : Builder σ T B E)
    (options : Slice (B → Exec σ Unit)) (s : σ) :
    New impl options s =
      match configured impl options s with
      | .panics p => .panics p
      | .returns b s2 => impl.Build b s2 := by
  unfold New configured
  cases impl.Default ZeroValue.zeroValue s with
  | panics p => rfl
  | returns b s1 =>
    dsimp only
    cases applyOptions b options.toList s1 <;> rfl

/-! ## Lemmas on the `Greeting` example -/

theorem Build_at (h : Heap) (a : Nat) (c : GreetingBuilder) (hc : h[a]? = some c) :
    GreetingBuilder.Build (Ptr.addr a) h = .returns (greet c.noun) h := by
  unfold GreetingBuilder.Build greet
  by_cases hn : c.noun = "" <;> simp [hc, hn]

theorem Build_fresh (h : Heap) (c : GreetingBuilder) :
    GreetingBuilder.Build (Ptr.addr h.length) (h ++ [c]) = .returns (greet c.noun) (h ++ [c]) := by
  unfold GreetingBuilder.Build greet
  by_cases hc : c.noun = "" <;> simp [hc]

theorem WithNoun_fresh (h : Heap) (c : GreetingBuilder) (noun : String) :
    WithNoun noun (Ptr.addr h.length) (h ++ [c]) = .returns () (h ++ [GreetingBuilder.mk noun]) := by
  simp [WithNoun, assignNoun]

theorem applyOptions_WithNoun (ns : List String) (h : Heap) (c : GreetingBuilder) :
    applyOptions (Ptr.addr h.length) (ns.map WithNoun) (h ++ [c]) =
      .returns () (h ++ [GreetingBuilder.mk (ns.getLast?.getD c.noun)]) := by
  induction ns generalizing c with
  | nil => rfl
  | cons n rest ih =>
    simp only [List.map_cons, applyOptions, WithNoun_fresh, ih, List.getLast?_cons,
      Option.getD_some]

theorem New_WithNoun (ns : List String) (h : Heap) :
    New greetingBuilder (.lit (ns.map WithNoun)) h =
      .returns (greet (ns.getLast?.getD "world"))
        (h ++ [GreetingBuilder.mk (ns.getLast?.getD "world")]) := by
  simp only [New, greetingBuilder, GreetingBuilder.Default, Slice.toList, applyOptions_WithNoun,
    Build_fresh]

theorem New_nil (h : Heap) :
    New greetingBuilder Slice.nil h =
      .returns ("Hello world!", none) (h ++ [GreetingBuilder.mk "world"]) := by
  simp only [New, greetingBuilder, GreetingBuilder.Default, Slice.toList, applyOptions,
    Build_fresh]
  rfl

theorem New_congr_toList {σ T B E : Type} [ZeroValue B] (impl : Builder σ T B E)
    (options : Slice (B → Exec σ Unit)) (l : List (B → Exec σ Unit))
    (hl : options.toList = l) (s : σ) :
    New impl options s = New impl (Slice.lit l) s := by
  unfold New
  rw [hl]
  rfl

theorem Build_returns_error (b : Ptr) (h h2 : Heap) (t : Greeting) (e : String)
    (hret : GreetingBuilder.Build b h = .returns (t, some e) h2) :
    t = "" ∧ e = "empty noun" ∧ h2 = h := by
  unfold GreetingBuilder.Build at hret
  cases b with
  | nil => simp at hret
  | addr a =>
    dsimp only at hret
    cases hc : h[a]? with
    | none => simp [hc] at hret
    | some c =>
      rw [hc] at hret
      dsimp only at hret
      by_cases hn : c.noun = ""
      · simp [hn] at hret
        obtain ⟨⟨ht, he⟩, hh⟩ := hret
        exact ⟨ht.symm, he.symm, hh.symm⟩
      · simp [hn] at hret

theorem Build_of_nounOf_empty (b : Ptr) (h : Heap) (hn : nounOf b h = some "") :
    GreetingBuilder.Build b h = .returns ("", some "empty noun") h := by
  unfold GreetingBuilder.Build
  cases b with
  | nil => simp [nounOf] at hn
  | addr a =>
    dsimp only
    cases hc : h[a]? with
    | none => simp [nounOf, hc] at hn
    | some c =>
      have hcn : c.noun = "" := by simpa [nounOf, hc] using hn
      simp [hcn]

theorem assignments_eq_map_WithNoun (options : List GreetingOption) (ns : List String)
    (hassign : List.Forall₂
      (fun option n => n ≠ "" ∧ ∀ b h1, option b h1 = assignNoun b n h1) options ns) :
    options = ns.map WithNoun ∧ ∀ n ∈ ns, n ≠ "" := by
  induction hassign with
  | nil => exact ⟨rfl, by simp⟩
  | @cons option n rest restNouns hhead _ ih =>
    refine ⟨?_, ?_⟩
    · have hopt : option = WithNoun n := by
        funext b h1
        exact hhead.2 b h1
      simp [hopt, ih.1]
    · intro m hm
      rcases List.mem_cons.mp hm with hm | hm
      · exact hm ▸ hhead.1
      · exact ih.2 m hm

theorem WithNoun_at (h h3 : Heap) (c : GreetingBuilder) (noun : String) :
    WithNoun noun (Ptr.addr h.length) (h ++ c :: h3) =
      .returns () (h ++ GreetingBuilder.mk noun :: h3) := by
  simp [WithNoun, assignNoun]

theorem WithNoun_noop_commute (noun : String) (b : Ptr) (h : Heap) :
    applyOptions b [WithNoun noun, noopLiteral] h =
      applyOptions b [noopLiteral, WithNoun noun] h := by
  simp only [applyOptions, noopLiteral]

theorem configured_WithNoun (ns : List String) (h : Heap) :
    configured greetingBuilder (Slice.lit (ns.map WithNoun)) h =
      .returns (Ptr.addr h.length) (h ++ [GreetingBuilder.mk (ns.getLast?.getD "world")]) := by
  simp only [configured, greetingBuilder, GreetingBuilder.Default, Slice.toList,
    applyOptions_WithNoun]

theorem greet_error_iff (noun : String) (t : Greeting) (e : String) :
    greet noun = (t, some e) ↔ noun = "" ∧ t = "" ∧ e = "empty noun" := by
  unfold greet
  by_cases hn : noun = ""
  · simp [hn, eq_comm]
  · simp [hn]

theorem greet_ok_iff (noun : String) (t : Greeting) :
    greet noun = (t, none) ↔ noun ≠ "" ∧ t = "Hello " ++ noun ++ "!" := by
  unfold greet
  by_cases hn : noun = ""
  · simp [hn]
  · simp [hn, eq_comm]

/-! ## Lemmas on `New` over a slice in the store -/

theorem rangeOptions_eq_applyOptions {σ B O : Type} (call : O → B → Exec σ Unit)
    (elements : σ → List O) (b : B) (l : List O)
    (hkeep : ∀ option ∈ l, ∀ b s s1, call option b s = .returns () s1 → elements s1 = elements s)
    (remaining i : Nat) (s : σ) (hl : elements s = l) (hlen : i + remaining = l.length) :
    rangeOptions call elements b i remaining s = applyOptions b ((l.drop i).map call) s := by
  induction remaining generalizing i s with
  | zero =>
    have hi : l.length ≤ i := by omega
    simp [rangeOptions, applyOptions, List.drop_eq_nil_of_le hi]
  | succ remaining ih =>
    have hi : i < l.length := by omega
    have hdrop : l.drop i = l[i] :: l.drop (i + 1) := List.drop_eq_getElem_cons hi
    have hget : (elements s)[i]? = some l[i] := by
      rw [hl]
      exact List.getElem?_eq_getElem hi
    simp only [rangeOptions, hget, hdrop, List.map_cons, applyOptions]
    cases hcall : call l[i] b s with
    | panics p => rfl
    | returns u s1 =>
      have hs1 : elements s1 = l :=
        (hkeep l[i] (List.getElem_mem hi) b s s1 hcall).trans hl
      exact ih (i + 1) s1 hs1 (by omega)

theorem NewShared_eq_New {σ T B E O : Type} [ZeroValue B] (impl : Builder σ T B E)
    (call : O → B → Exec σ Unit) (elements : σ → List O) (s : σ)
    (hkeep : leavesSlice impl call elements (elements s)) :
    NewShared impl call elements s = New impl (Slice.lit ((elements s).map call)) s := by
  unfold NewShared New
  cases hdef : impl.Default ZeroValue.zeroValue s with
  | panics p => rfl
  | returns b s1 =>
    have hs1 : elements s1 = elements s := hkeep.1 s b s1 hdef
    have hrange := rangeOptions_eq_applyOptions call elements b (elements s) hkeep.2
      (elements s).length 0 s1 hs1 (by omega)
    simp only [hrange, List.drop_zero, Slice.toList]

theorem onHeap_slots {α : Type} (x : Exec Heap α) (m m1 : Memory) (a : α)
    (hret : onHeap x m = .returns a m1) : m1.slots = m.slots := by
  unfold onHeap at hret
  cases hx : x m.heap with
  | panics p => simp [hx] at hret
  | returns a1 h1 =>
    simp only [hx, Outcome.returns.injEq] at hret
    rw [← hret.2]

theorem leavesSlice_withNoun (ns : List String) :
    leavesSlice sharedGreetingBuilder callOption Memory.slots (ns.map OptionValue.withNoun) := by
  refine ⟨?_, ?_⟩
  · intro m b m1 hret
    exact onHeap_slots (GreetingBuilder.Default ZeroValue.zeroValue) m m1 b hret
  · intro option hmem b m m1 hret
    obtain ⟨n, _, rfl⟩ := List.mem_map.mp hmem
    exact onHeap_slots (WithNoun n b) m m1 () hret

theorem withNoun_nothing_commute (noun : String) (b : Ptr) (m : Memory) :
    applyOptions b [callOption (OptionValue.withNoun noun), callOption OptionValue.nothing] m =
      applyOptions b [callOption OptionValue.nothing, callOption (OptionValue.withNoun noun)] m := by
  simp only [applyOptions, callOption]

/-! ## Lemmas on options that act on their own builder -/

theorem applyOptions_contents {σ B β : Type} (contents : B → σ → Option β)
    (options : List (B → Exec σ Unit)) (updates : List (β → β))
    (hOptions : List.Forall₂ (fun option f => ∀ b s c, contents b s = some c →
      ∃ s1, option b s = .returns () s1 ∧ contents b s1 = some (f c)) options updates)
    (b : B) (s : σ) (c : β) (hc : contents b s = some c) :
    ∃ s1, applyOptions b options s = .returns () s1 ∧
      contents b s1 = some (updates.foldl (fun c f => f c) c) := by
  induction hOptions generalizing s c with
  | nil => exact ⟨s, rfl, hc⟩
  | @cons option f rest restUpdates hhead _ ih =>
    obtain ⟨s1, hcall, hc1⟩ := hhead b s c hc
    obtain ⟨s2, hrest, hc2⟩ := ih s1 (f c) hc1
    refine ⟨s2, ?_, ?_⟩
    · simp only [applyOptions, hcall, hrest]
    · simpa using hc2

theorem Default_cellOf (h : Heap) :
    ∃ b h1, greetingBuilder.Default ZeroValue.zeroValue h = .returns b h1 ∧
      cellOf b h1 = some (GreetingBuilder.mk "world") :=
  ⟨Ptr.addr h.length, h ++ [GreetingBuilder.mk "world"], rfl, by simp [cellOf]⟩

theorem Build_cellOf (b : Ptr) (h : Heap) (c : GreetingBuilder) (hc : cellOf b h = some c) :
    ∃ h1, greetingBuilder.Build b h = .returns (greet c.noun) h1 := by
  cases b with
  | nil => simp [cellOf] at hc
  | addr a => exact ⟨h, Build_at h a c hc⟩

theorem WithNoun_cellOf (noun : String) (b : Ptr) (h : Heap) (c : GreetingBuilder)
    (hc : cellOf b h = some c) :
    ∃ h1, WithNoun noun b h = .returns () h1 ∧ cellOf b h1 = some (GreetingBuilder.mk noun) := by
  cases b with
  | nil => simp [cellOf] at hc
  | addr a =>
    simp only [cellOf] at hc
    have ha : a < h.length := (List.getElem?_eq_some.mp hc).1
    refine ⟨h.set a (GreetingBuilder.mk noun), ?_, ?_⟩
    · simp [WithNoun, assignNoun, hc]
    · simp [cellOf, ha]

theorem appendNoun_cellOf (suffix : String) (b : Ptr) (h : Heap) (c : GreetingBuilder)
    (hc : cellOf b h = some c) :
    ∃ h1, appendNoun suffix b h = .returns () h1 ∧
      cellOf b h1 = some (GreetingBuilder.mk (c.noun ++ suffix)) := by
  cases b with
  | nil => simp [cellOf] at hc
  | addr a =>
    simp only [cellOf] at hc
    have ha : a < h.length := (List.getElem?_eq_some.mp hc).1
    refine ⟨h.set a (GreetingBuilder.mk (c.noun ++ suffix)), ?_, ?_⟩
    · simp [appendNoun, hc]
    · simp [cellOf, ha]

theorem WithSalutation_WithAddressee_commute (s n : String) (b : Ptr) (h : List LetterBuilder) :
    applyOptions b [WithSalutation s, WithAddressee n] h =
      applyOptions b [WithAddressee n, WithSalutation s] h := by
  cases b with
  | nil => simp [applyOptions, WithSalutation, WithAddressee]
  | addr a =>
    cases hc : h[a]? with
    | none => simp [applyOptions, WithSalutation, WithAddressee, hc]
    | some c =>
      have ha : a < h.length := (List.getElem?_eq_some.mp hc).1
      simp [applyOptions, WithSalutation, WithAddressee, hc, ha]

/-! ## The contract of `New` -/

/-- On a slice that nothing writes to while `New` runs, as in `New(o1, ..., on)`,
`New` returns exactly what `Build` returns on the builder obtained from
`Default` of the zero value of `B` after the options have been applied as a
left fold over the input list: each once, in input order.  An option returns
nothing and acts on the store, so the fold threads the store while the handle
`b` stays fixed. -/
theorem New_eq_NewSpec {σ T B E : Type} [ZeroValue B] (impl : Builder σ T B E)
    (options : Slice (B → Exec σ Unit)) (s : σ) :
    New impl options s = NewSpec impl options s := by
  unfold New NewSpec
  cases impl.Default ZeroValue.zeroValue s with
  | panics p => rfl
  | returns b s1 =>
    dsimp only
    rw [applyOptions_eq_foldl]

/-- C1, as stated, fails for `New(all...)`: the first option of the caller's slice
replaces the second before its turn, so `New` returns `"Hello hijacked!"`,
while applying the two options that were passed, each once and in order, gives
`"Hello earth!"`. -/
theorem NewShared_replaced_option_counterexample :
    NewShared sharedGreetingBuilder callOption Memory.slots
        (Memory.mk [] [OptionValue.overwrite 1 "hijacked", OptionValue.withNoun "earth"]) =
      .returns ("Hello hijacked!", none)
        (Memory.mk [GreetingBuilder.mk "hijacked"]
          [OptionValue.overwrite 1 "hijacked", OptionValue.withNoun "hijacked"]) ∧
    NewSpec sharedGreetingBuilder
        (Slice.lit ([OptionValue.overwrite 1 "hijacked", OptionValue.withNoun "earth"].map
          callOption))
        (Memory.mk [] [OptionValue.overwrite 1 "hijacked", OptionValue.withNoun "earth"]) =
      .returns ("Hello earth!", none)
        (Memory.mk [GreetingBuilder.mk "earth"]
          [OptionValue.overwrite 1 "hijacked", OptionValue.withNoun "hijacked"]) ∧
    NewShared sharedGreetingBuilder callOption Memory.slots
        (Memory.mk [] [OptionValue.overwrite 1 "hijacked", OptionValue.withNoun "earth"]) ≠
      NewSpec sharedGreetingBuilder
        (Slice.lit ([OptionValue.overwrite 1 "hijacked", OptionValue.withNoun "earth"].map
          callOption))
        (Memory.mk [] [OptionValue.overwrite 1 "hijacked", OptionValue.withNoun "earth"]) := by
  refine ⟨by decide, by decide, by decide⟩

/-- C1, amended: for every `Builder` implementation and every slice of options
that neither `Default` nor any of its options writes to while `New` runs, `New`
returns exactly what `Build` returns on the builder obtained from `Default` of
the zero value of `B` after the options the slice held at the call have been
applied as a left fold: each once, in input order.  A call that lists its
options, `New(o1, ..., on)`, ranges over a slice of its own, and the same holds
of it with no condition. -/
theorem NewShared_eq_NewSpec {σ T B E O : Type} [ZeroValue B] (impl : Builder σ T B E)
    (call : O → B → Exec σ Unit) (elements : σ → List O) (s : σ)
    (options : Slice (B → Exec σ Unit))
    (hkeep : leavesSlice impl call elements (elements s)) :
    NewShared impl call elements s = NewSpec impl (Slice.lit ((elements s).map call)) s ∧
    New impl options s = NewSpec impl options s := by
  refine ⟨?_, New_eq_NewSpec impl options s⟩
  rw [NewShared_eq_New impl call elements s hkeep]
  exact New_eq_NewSpec impl _ s

/-- C1, amended, at `New(all...)` with `all` holding `WithNoun("planet")` and
`WithNoun("earth")`. -/
theorem NewShared_eq_NewSpec_witness :
    NewShared sharedGreetingBuilder callOption Memory.slots
        (Memory.mk [] [OptionValue.withNoun "planet", OptionValue.withNoun "earth"]) =
      .returns ("Hello earth!", none)
        (Memory.mk [GreetingBuilder.mk "earth"]
          [OptionValue.withNoun "planet", OptionValue.withNoun "earth"]) :=
  (NewShared_eq_NewSpec sharedGreetingBuilder callOption Memory.slots
      (Memory.mk [] [OptionValue.withNoun "planet", OptionValue.withNoun "earth"]) Slice.nil
      (leavesSlice_withNoun ["planet", "earth"])).1.trans (by decide)

/-- C2: with no options, whether the slice is `nil` or empty, `New` returns what
`Build` returns on `Default` of the zero builder, for every `Builder`
implementation.  For the `Greeting` example that is `("Hello world!", nil)`, and
`New(WithNoun("world"))` returns the same and leaves the same heap. -/
theorem New_zero_options {σ T B E : Type} [ZeroValue B] (impl : Builder σ T B E) (s : σ)
    (h : Heap) :
    (New impl Slice.nil s =
        match impl.Default ZeroValue.zeroValue s with
        | .panics p => .panics p
        | .returns b s1 => impl.Build b s1) ∧
    New impl (Slice.lit []) s = New impl Slice.nil s ∧
    New greetingBuilder Slice.nil h =
      .returns ("Hello world!", none) (h ++ [GreetingBuilder.mk "world"]) ∧
    New greetingBuilder (Slice.lit []) h =
      .returns ("Hello world!", none) (h ++ [GreetingBuilder.mk "world"]) ∧
    New greetingBuilder (Slice.lit [WithNoun "world"]) h = New greetingBuilder Slice.nil h := by
  refine ⟨?_, rfl, New_nil h, New_nil h, ?_⟩
  · unfold New
    cases impl.Default ZeroValue.zeroValue s with
    | panics p => rfl
    | returns b s1 => rfl
  · rw [New_nil]
    exact New_WithNoun ["world"] h

/-- C3: last write wins.  For every list of `WithNoun` options (with nouns `ns`)
and every noun `b`, `New(WithNoun(ns)..., WithNoun(b))` returns the same value
and error, and leaves the same heap, as `New(WithNoun(b))`, and both calls do
return: the empty-noun error when `b` is empty, `"Hello b!"` otherwise.  In
particular `New(WithNoun("planet"), WithNoun("earth"))` is `("Hello earth!", nil)`. -/
theorem New_last_write_wins (ns : List String) (b : String) (h : Heap) :
    New greetingBuilder (Slice.lit (ns.map WithNoun ++ [WithNoun b])) h =
      New greetingBuilder (Slice.lit [WithNoun b]) h ∧
    New greetingBuilder (Slice.lit [WithNoun b]) h =
      .returns (if b = "" then ("", some "empty noun") else ("Hello " ++ b ++ "!", none))
        (h ++ [GreetingBuilder.mk b]) ∧
    New greetingBuilder (Slice.lit [WithNoun "planet", WithNoun "earth"]) h =
      .returns ("Hello earth!", none) (h ++ [GreetingBuilder.mk "earth"]) := by
  have hone : ∀ c : String, New greetingBuilder (Slice.lit [WithNoun c]) h =
      .returns (greet c) (h ++ [GreetingBuilder.mk c]) := fun c => New_WithNoun [c] h
  have hmany : New greetingBuilder (Slice.lit (ns.map WithNoun ++ [WithNoun b])) h =
      .returns (greet b) (h ++ [GreetingBuilder.mk b]) := by
    have := New_WithNoun (ns ++ [b]) h
    simpa using this
  refine ⟨hmany.trans (hone b).symm, hone b, ?_⟩
  have := New_WithNoun ["planet", "earth"] h
  simpa [greet] using this

/-- C4: an invalid configuration always fails.  For every slice of options,
whatever they are, after whose application the builder's noun is the empty
string, `New` returns the error `"empty noun"` together with the empty
`Greeting`. -/
theorem New_empty_noun (options : Slice GreetingOption) (h h2 : Heap) (b : Ptr)
    (hcfg : configured greetingBuilder options h = .returns b h2)
    (hnoun : nounOf b h2 = some "") :
    New greetingBuilder options h = .returns ("", some "empty noun") h2 := by
  rw [New_eq_Build_configured, hcfg]
  exact Build_of_nounOf_empty b h2 hnoun

/-- C4 at `New(WithNoun(""))` on the empty heap. -/
theorem New_empty_noun_witness :
    configured greetingBuilder (Slice.lit [WithNoun ""]) [] =
        .returns (Ptr.addr 0) [GreetingBuilder.mk ""] ∧
      nounOf (Ptr.addr 0) [GreetingBuilder.mk ""] = some "" ∧
      New greetingBuilder (Slice.lit [WithNoun ""]) [] =
        .returns ("", some "empty noun") [GreetingBuilder.mk ""] :=
  ⟨by decide, by decide,
    New_empty_noun (Slice.lit [WithNoun ""]) [] [GreetingBuilder.mk ""] (Ptr.addr 0)
      (by decide) (by decide)⟩

/-- C5: for every slice of options each of which assigns a non-empty noun
(`WithNoun(n)` or a function literal `func(b) { b.noun = n }`; `ns` lists the
nouns in order), `New` on the `Greeting` example returns a nil error and
`"Hello " ++ n ++ "!"` where `n` is the noun assigned by the last option, or
`"world"` when there is no option. -/
theorem New_nonempty_nouns (options : Slice GreetingOption) (ns : List String) (h : Heap)
    (hassign : List.Forall₂
      (fun option n => n ≠ "" ∧ ∀ b h1, option b h1 = assignNoun b n h1) options.toList ns) :
    New greetingBuilder options h =
      .returns ("Hello " ++ ns.getLast?.getD "world" ++ "!", none)
        (h ++ [GreetingBuilder.mk (ns.getLast?.getD "world")]) := by
  have hmap := assignments_eq_map_WithNoun options.toList ns hassign
  have hlast : ns.getLast?.getD "world" ≠ "" := by
    cases hl : ns.getLast? with
    | none => simp
    | some n => simpa using hmap.2 n (List.mem_of_getLast?_eq_some hl)
  rw [New_congr_toList greetingBuilder options _ hmap.1, New_WithNoun]
  simp [greet, hlast]

/-- C5 at `New(WithNoun("option"))` and at `New(func(b) { b.noun = "func" })`. -/
theorem New_nonempty_nouns_witness :
    New greetingBuilder (Slice.lit [WithNoun "option"]) [] =
        .returns ("Hello option!", none) [GreetingBuilder.mk "option"] ∧
      New greetingBuilder (Slice.lit [funcLiteral]) [] =
        .returns ("Hello func!", none) [GreetingBuilder.mk "func"] :=
  ⟨New_nonempty_nouns (Slice.lit [WithNoun "option"]) ["option"] []
      (List.Forall₂.cons ⟨by decide, fun _ _ => rfl⟩ List.Forall₂.nil),
    New_nonempty_nouns (Slice.lit [funcLiteral]) ["func"] []
      (List.Forall₂.cons ⟨by decide, fun _ _ => rfl⟩ List.Forall₂.nil)⟩

/-- C6: `New` propagates the builder's result verbatim and adds no error
condition of its own.  For every `Builder` implementation and every slice of
options, `New` returns the value `t` and the error `err` (nil or not) exactly
when `Build`, called on the configured builder, returns that same `t` and that
same `err`; so `New` returns a non-nil error if and only if `Build` does, and
the error is the same value. -/
theorem New_error_verbatim {σ T B E : Type} [ZeroValue B] (impl : Builder σ T B E)
    (options : Slice (B → Exec σ Unit)) (s s3 : σ) (t : T) (err : Option E) :
    New impl options s = .returns (t, err) s3 ↔
      ∃ b s2, configured impl options s = .returns b s2 ∧
        impl.Build b s2 = .returns (t, err) s3 := by
  rw [New_eq_Build_configured]
  cases configured impl options s with
  | panics p => simp
  | returns b s2 =>
    constructor
    · intro hret
      exact ⟨b, s2, rfl, hret⟩
    · rintro ⟨b1, s1, hcfg, hret⟩
      cases hcfg
      exact hret

/-- C7, as stated, fails: the implementation `Draft` returns its own contents
alongside its error, and `New` hands both to the caller. -/
theorem New_value_with_error_counterexample :
    New draftBuilder Slice.nil () = .returns ("draft", some "never valid") () ∧
      ("draft" : String) ≠ ZeroValue.zeroValue ∧
      ¬ ∀ (impl : Builder Unit String String String) (options : Slice (String → Exec Unit Unit))
          (s s3 : Unit) (t e : String),
          New impl options s = .returns (t, some e) s3 → t = ZeroValue.zeroValue := by
  refine ⟨rfl, by decide, ?_⟩
  intro hall
  have := hall draftBuilder Slice.nil () () "draft" "never valid" rfl
  exact absurd this (by decide)

/-- C7, amended: for every `Builder` implementation whose `Build` returns the
zero value of `T` alongside every non-nil error, and every slice of options,
whenever `New` returns a non-nil error the value it returns is the zero value
of `T`. -/
theorem New_zero_value_with_error {σ T B E : Type} [ZeroValue B] [ZeroValue T]
    (impl : Builder σ T B E) (options : Slice (B → Exec σ Unit)) (s s3 : σ) (t : T) (e : E)
    (hzero : ∀ b s2 t1 e1 s4, impl.Build b s2 = .returns (t1, some e1) s4 →
      t1 = ZeroValue.zeroValue)
    (hret : New impl options s = .returns (t, some e) s3) :
    t = ZeroValue.zeroValue := by
  rw [New_eq_Build_configured] at hret
  cases hcfg : configured impl options s with
  | panics p => simp [hcfg] at hret
  | returns b s2 =>
    rw [hcfg] at hret
    exact hzero b s2 t e s3 hret

/-- C7, amended, at the `Greeting` example and `New(WithNoun(""))`. -/
theorem New_zero_value_with_error_witness :
    New greetingBuilder (Slice.lit [WithNoun ""]) [] =
        .returns ("", some "empty noun") [GreetingBuilder.mk ""] ∧
      ("" : Greeting) = ZeroValue.zeroValue :=
  ⟨by decide,
    New_zero_value_with_error greetingBuilder (Slice.lit [WithNoun ""]) []
      [GreetingBuilder.mk ""] "" "empty noun"
      (fun b s2 t1 e1 s4 hb => (Build_returns_error b s2 s4 t1 e1 hb).1) (by decide)⟩

/-- C8: idempotence of defaults.  What `GreetingBuilder.Default` does is the same
for any two receivers, and two calls on two zero (nil) handles, one after the
other, give two distinct builders on each of which `Build`, with no option
applied, returns `("Hello world!", nil)`. -/
theorem Default_idempotent (r1 r2 : Ptr) (h : Heap) :
    GreetingBuilder.Default r1 h = GreetingBuilder.Default r2 h ∧
    GreetingBuilder.Default Ptr.nil h =
      .returns (Ptr.addr h.length) (h ++ [GreetingBuilder.mk "world"]) ∧
    GreetingBuilder.Default Ptr.nil (h ++ [GreetingBuilder.mk "world"]) =
      .returns (Ptr.addr (h.length + 1))
        (h ++ [GreetingBuilder.mk "world"] ++ [GreetingBuilder.mk "world"]) ∧
    Ptr.addr h.length ≠ Ptr.addr (h.length + 1) ∧
    (GreetingBuilder.Build (Ptr.addr h.length)
        (h ++ [GreetingBuilder.mk "world"] ++ [GreetingBuilder.mk "world"])).value? =
      some ("Hello world!", none) ∧
    (GreetingBuilder.Build (Ptr.addr (h.length + 1))
        (h ++ [GreetingBuilder.mk "world"] ++ [GreetingBuilder.mk "world"])).value? =
      some ("Hello world!", none) := by
  refine ⟨rfl, rfl, ?_, ?_, ?_, ?_⟩
  · simp [GreetingBuilder.Default]
  · simp
  · rw [Build_at _ _ (GreetingBuilder.mk "world")
      (by rw [List.append_assoc, List.getElem?_append_right (le_refl _)]; simp)]
    rfl
  · have hb := Build_fresh (h ++ [GreetingBuilder.mk "world"]) (GreetingBuilder.mk "world")
    simp only [List.length_append, List.length_singleton] at hb
    rw [hb]
    rfl

/-- C9: `Default` is callable on the zero builder and never yields nil.  The zero
value of `*GreetingBuilder` is nil; `Default` on the nil receiver returns (it
does not panic) a non-nil pointer to a builder whose noun is `"world"`; `New`
passes that non-nil pointer to every option and to `Build`; neither an
assignment of a noun nor `Build` dereferences nil on a non-nil pointer; and
`New` over `WithNoun` options never ends in a nil dereference. -/
theorem Default_never_nil (options : Slice GreetingOption) (ns : List String) (h : Heap)
    (a : Nat) (noun : String) (h1 : Heap) :
    (ZeroValue.zeroValue : Ptr) = Ptr.nil ∧
    GreetingBuilder.Default Ptr.nil h =
      .returns (Ptr.addr h.length) (h ++ [GreetingBuilder.mk "world"]) ∧
    Ptr.addr h.length ≠ Ptr.nil ∧
    nounOf (Ptr.addr h.length) (h ++ [GreetingBuilder.mk "world"]) = some "world" ∧
    (New greetingBuilder options h =
      match applyOptions (Ptr.addr h.length) options.toList
          (h ++ [GreetingBuilder.mk "world"]) with
      | .panics p => .panics p
      | .returns _ h2 => GreetingBuilder.Build (Ptr.addr h.length) h2) ∧
    WithNoun noun (Ptr.addr a) h1 ≠ .panics .nilDereference ∧
    GreetingBuilder.Build (Ptr.addr a) h1 ≠ .panics .nilDereference ∧
    New greetingBuilder (Slice.lit (ns.map WithNoun)) h ≠ .panics .nilDereference := by
  refine ⟨rfl, rfl, by simp, by simp [nounOf], ?_, ?_, ?_, ?_⟩
  · simp only [New, greetingBuilder, GreetingBuilder.Default]
    cases applyOptions (Ptr.addr h.length) options.toList (h ++ [GreetingBuilder.mk "world"])
      <;> rfl
  · simp only [WithNoun, assignNoun]
    cases h1[a]? <;> simp
  · simp only [GreetingBuilder.Build]
    cases h1[a]? with
    | none => simp
    | some c => by_cases hc : c.noun = "" <;> simp [hc]
  · simp [New_WithNoun]

/-- Calls with `WithNoun` options are independent.  On the `Greeting` example, for
every list of `WithNoun` options (nouns `ns`) the value and error that `New`
returns are the same from any two heaps `h` and `h1`, hence the same for two
calls with the same options; an earlier call with other options (nouns `ms`)
leaves every existing cell as it was and adds one cell of its own, and the
later call returns from the heap it left what it returns from `h`.  In
particular `New()` after `New(WithNoun("planet"))` returns `"Hello world!"`. -/
theorem New_calls_independent (ns ms : List String) (h h1 : Heap) :
    (∃ r, (New greetingBuilder (Slice.lit (ns.map WithNoun)) h).value? = some r ∧
      (New greetingBuilder (Slice.lit (ns.map WithNoun)) h1).value? = some r) ∧
    (New greetingBuilder (Slice.lit (ms.map WithNoun)) h).store? =
      some (h ++ [GreetingBuilder.mk (ms.getLast?.getD "world")]) ∧
    (New greetingBuilder (Slice.lit (ns.map WithNoun))
        (h ++ [GreetingBuilder.mk (ms.getLast?.getD "world")])).value? =
      (New greetingBuilder (Slice.lit (ns.map WithNoun)) h).value? ∧
    (New greetingBuilder (Slice.lit [WithNoun "planet"]) h).store? =
      some (h ++ [GreetingBuilder.mk "planet"]) ∧
    (New greetingBuilder Slice.nil (h ++ [GreetingBuilder.mk "planet"])).value? =
      some ("Hello world!", none) := by
  refine ⟨⟨greet (ns.getLast?.getD "world"), ?_, ?_⟩, ?_, ?_, ?_, ?_⟩
  · rw [New_WithNoun]; rfl
  · rw [New_WithNoun]; rfl
  · rw [New_WithNoun]; rfl
  · rw [New_WithNoun, New_WithNoun]; rfl
  · exact (congrArg Outcome.store? (New_WithNoun ["planet"] h)).trans rfl
  · rw [New_nil]; rfl

/-- C10, as stated, fails: an option may read a builder that an earlier call
left.  The same option list, `copyNounFrom` of the first builder, returns
`"Hello planet!"` after `New(WithNoun("planet"))` and `"Hello earth!"` after
`New(WithNoun("earth"))`. -/
theorem New_depends_on_earlier_call_counterexample :
    New greetingBuilder (Slice.lit [WithNoun "planet"]) [] =
      .returns ("Hello planet!", none) [GreetingBuilder.mk "planet"] ∧
    New greetingBuilder (Slice.lit [copyNounFrom (Ptr.addr 0)]) [GreetingBuilder.mk "planet"] =
      .returns ("Hello planet!", none) [GreetingBuilder.mk "planet", GreetingBuilder.mk "planet"] ∧
    New greetingBuilder (Slice.lit [WithNoun "earth"]) [] =
      .returns ("Hello earth!", none) [GreetingBuilder.mk "earth"] ∧
    New greetingBuilder (Slice.lit [copyNounFrom (Ptr.addr 0)]) [GreetingBuilder.mk "earth"] =
      .returns ("Hello earth!", none) [GreetingBuilder.mk "earth", GreetingBuilder.mk "earth"] ∧
    (New greetingBuilder (Slice.lit [copyNounFrom (Ptr.addr 0)])
        [GreetingBuilder.mk "planet"]).value? ≠
      (New greetingBuilder (Slice.lit [copyNounFrom (Ptr.addr 0)])
        [GreetingBuilder.mk "earth"]).value? := by
  refine ⟨by decide, by decide, by decide, by decide, by decide⟩

/-- C10, amended: each construction call is independent when the options act on
their own builder only.  For every `Builder` implementation whose `Default`
gives the builder the contents `d` from every store and whose `Build` returns
`build` of the builder's contents, and every slice of options each of which
changes the contents of the builder it receives by a function of those
contents, `New` returns `build` of the updates folded over `d`: the value and
error depend on the option list alone, so they are the same from any two
stores `s` and `s1`, whatever earlier calls have left there. -/
theorem New_independent_of_store {σ T B E β : Type} [ZeroValue B] (impl : Builder σ T B E)
    (contents : B → σ → Option β) (d : β) (build : β → T × Option E)
    (options : Slice (B → Exec σ Unit)) (updates : List (β → β))
    (hDefault : ∀ s, ∃ b s1, impl.Default ZeroValue.zeroValue s = .returns b s1 ∧
      contents b s1 = some d)
    (hOptions : List.Forall₂ (fun option f => ∀ b s c, contents b s = some c →
      ∃ s1, option b s = .returns () s1 ∧ contents b s1 = some (f c)) options.toList updates)
    (hBuild : ∀ b s c, contents b s = some c → ∃ s1, impl.Build b s = .returns (build c) s1)
    (s s1 : σ) :
    (New impl options s).value? = some (build (updates.foldl (fun c f => f c) d)) ∧
    (New impl options s1).value? = (New impl options s).value? := by
  have hvalue : ∀ s0, (New impl options s0).value? =
      some (build (updates.foldl (fun c f => f c) d)) := by
    intro s0
    obtain ⟨b, s2, hdef, hc⟩ := hDefault s0
    obtain ⟨s3, happ, hc3⟩ := applyOptions_contents contents options.toList updates hOptions
      b s2 d hc
    obtain ⟨s4, hb⟩ := hBuild b s3 _ hc3
    simp only [New, hdef, happ, hb, Outcome.value?]
  exact ⟨hvalue s, (hvalue s1).trans (hvalue s).symm⟩

/-- C10, amended, on the `Greeting` example: `New(WithNoun("planet"), func(b) {
b.noun += "s" })` from the empty heap and from the heap an earlier call left,
and `New()` after `New(WithNoun("planet"))`. -/
theorem New_independent_of_store_witness :
    ((New greetingBuilder (Slice.lit [WithNoun "planet", appendNoun "s"]) []).value? =
        some ("Hello planets!", none) ∧
      (New greetingBuilder (Slice.lit [WithNoun "planet", appendNoun "s"])
          [GreetingBuilder.mk "earth"]).value? =
        (New greetingBuilder (Slice.lit [WithNoun "planet", appendNoun "s"]) []).value?) ∧
    ((New greetingBuilder Slice.nil [GreetingBuilder.mk "planet"]).value? =
        some ("Hello world!", none) ∧
      (New greetingBuilder Slice.nil []).value? =
        (New greetingBuilder Slice.nil [GreetingBuilder.mk "planet"]).value?) :=
  ⟨New_independent_of_store greetingBuilder cellOf (GreetingBuilder.mk "world")
      (fun c => greet c.noun) (Slice.lit [WithNoun "planet", appendNoun "s"])
      [fun _ => GreetingBuilder.mk "planet", fun c => GreetingBuilder.mk (c.noun ++ "s")]
      Default_cellOf
      (List.Forall₂.cons (WithNoun_cellOf "planet")
        (List.Forall₂.cons (appendNoun_cellOf "s") List.Forall₂.nil))
      Build_cellOf [] [GreetingBuilder.mk "earth"],
    New_independent_of_store greetingBuilder cellOf (GreetingBuilder.mk "world")
      (fun c => greet c.noun) Slice.nil [] Default_cellOf List.Forall₂.nil Build_cellOf
      [GreetingBuilder.mk "planet"] []⟩

/-! ## Behaviour of the example and of option order -/

/-- C11: the instantiated constructor `NewGreeting` and the generic call
`create.New[Greeting]`, whose remaining type arguments are inferred from the
options as `*GreetingBuilder` and `GreetingOption`, return the same `Greeting`
and the same error, and leave the same heap, for every slice of
`GreetingOption` values; on the five cases of the test tables `NewGreeting`
returns the expected outcome. -/
theorem NewGreeting_eq_New (options : Slice GreetingOption) (h : Heap) :
    NewGreeting options h = New greetingBuilder options h ∧
    NewGreeting Slice.nil h =
      .returns ("Hello world!", none) (h ++ [GreetingBuilder.mk "world"]) ∧
    NewGreeting (Slice.lit []) h =
      .returns ("Hello world!", none) (h ++ [GreetingBuilder.mk "world"]) ∧
    NewGreeting (Slice.lit [WithNoun "planet"]) h =
      .returns ("Hello planet!", none) (h ++ [GreetingBuilder.mk "planet"]) ∧
    NewGreeting (Slice.lit [WithNoun "planet", WithNoun "earth"]) h =
      .returns ("Hello earth!", none) (h ++ [GreetingBuilder.mk "earth"]) ∧
    NewGreeting (Slice.lit [WithNoun ""]) h =
      .returns ("", some "empty noun") (h ++ [GreetingBuilder.mk ""]) := by
  refine ⟨rfl, New_nil h, New_nil h, ?_, ?_, ?_⟩
  · have := New_WithNoun ["planet"] h
    simpa [NewGreeting, greet] using this
  · have := New_WithNoun ["planet", "earth"] h
    simpa [NewGreeting, greet] using this
  · have := New_WithNoun [""] h
    simpa [NewGreeting, greet] using this

/-- Swapping two commuting options in a slice that nothing writes to.  For every
`Builder` implementation, if two options `o1` and `o2` commute, that is, running
`o1` then `o2` on any builder from any store ends as running `o2` then `o1`
does, then for all option lists `xs` and `ys`, `New(xs ++ [o1, o2] ++ ys)`
returns the same value and error, and leaves the same store, as
`New(xs ++ [o2, o1] ++ ys)`. -/
theorem New_commuting_options {σ T B E : Type} [ZeroValue B] (impl : Builder σ T B E)
    (o1 o2 : B → Exec σ Unit)
    (hcomm : ∀ b s, applyOptions b [o1, o2] s = applyOptions b [o2, o1] s)
    (xs ys : List (B → Exec σ Unit)) (s : σ) :
    New impl (Slice.lit (xs ++ [o1, o2] ++ ys)) s =
      New impl (Slice.lit (xs ++ [o2, o1] ++ ys)) s := by
  have happ : ∀ b s1, applyOptions b (xs ++ [o1, o2] ++ ys) s1 =
      applyOptions b (xs ++ [o2, o1] ++ ys) s1 := by
    intro b s1
    rw [List.append_assoc, List.append_assoc, applyOptions_append, applyOptions_append b xs]
    cases applyOptions b xs s1 with
    | panics p => rfl
    | returns u s2 =>
      dsimp only
      rw [applyOptions_append, applyOptions_append b [o2, o1], hcomm]
  unfold New
  cases impl.Default ZeroValue.zeroValue s with
  | panics p => rfl
  | returns b s1 =>
    dsimp only [Slice.toList]
    rw [happ]

/-- The swap of `WithNoun("earth")` and the literal that assigns nothing, after
`WithNoun("planet")`, on the `Greeting` example. -/
theorem New_commuting_options_noop :
    New greetingBuilder
        (Slice.lit ([WithNoun "planet"] ++ [WithNoun "earth", noopLiteral] ++ [noopLiteral])) [] =
      New greetingBuilder
        (Slice.lit ([WithNoun "planet"] ++ [noopLiteral, WithNoun "earth"] ++ [noopLiteral])) [] ∧
    New greetingBuilder
        (Slice.lit ([WithNoun "planet"] ++ [noopLiteral, WithNoun "earth"] ++ [noopLiteral])) [] =
      .returns ("Hello earth!", none) [GreetingBuilder.mk "earth"] :=
  ⟨New_commuting_options greetingBuilder (WithNoun "earth") noopLiteral
      (WithNoun_noop_commute "earth") [WithNoun "planet"] [noopLiteral] [],
    by decide⟩

/-- C12, as stated, fails for slices of the caller: `WithNoun("earth")` and the
literal that assigns nothing commute on every builder and store, yet after an
option that replaces element 1 of the array `all`, `New(all[:3]...)`, which
holds them in one order, returns `"Hello hijacked!"` and `New(all[3:]...)`,
which holds them in the other, returns `"Hello earth!"`. -/
theorem NewShared_swap_counterexample :
    (∀ b m, applyOptions b
        [callOption (OptionValue.withNoun "earth"), callOption OptionValue.nothing] m =
      applyOptions b
        [callOption OptionValue.nothing, callOption (OptionValue.withNoun "earth")] m) ∧
    (Memory.mk []
        [OptionValue.overwrite 1 "hijacked", OptionValue.withNoun "earth", OptionValue.nothing,
          OptionValue.overwrite 1 "hijacked", OptionValue.nothing,
          OptionValue.withNoun "earth"]).slots.take 3 =
      [OptionValue.overwrite 1 "hijacked"] ++
        [OptionValue.withNoun "earth", OptionValue.nothing] ++ [] ∧
    (Memory.mk []
        [OptionValue.overwrite 1 "hijacked", OptionValue.withNoun "earth", OptionValue.nothing,
          OptionValue.overwrite 1 "hijacked", OptionValue.nothing,
          OptionValue.withNoun "earth"]).slots.drop 3 =
      [OptionValue.overwrite 1 "hijacked"] ++
        [OptionValue.nothing, OptionValue.withNoun "earth"] ++ [] ∧
    (NewShared sharedGreetingBuilder callOption (fun m => m.slots.take 3)
        (Memory.mk []
          [OptionValue.overwrite 1 "hijacked", OptionValue.withNoun "earth", OptionValue.nothing,
            OptionValue.overwrite 1 "hijacked", OptionValue.nothing,
            OptionValue.withNoun "earth"])).value? =
      some ("Hello hijacked!", none) ∧
    (NewShared sharedGreetingBuilder callOption (fun m => m.slots.drop 3)
        (Memory.mk []
          [OptionValue.overwrite 1 "hijacked", OptionValue.withNoun "earth", OptionValue.nothing,
            OptionValue.overwrite 1 "hijacked", OptionValue.nothing,
            OptionValue.withNoun "earth"])).value? =
      some ("Hello earth!", none) := by
  refine ⟨withNoun_nothing_commute "earth", by decide, by decide, by decide, by decide⟩

/-- C12, amended: option application is order-commutative except for overrides,
on slices that are not written to.  For every `Builder` implementation, if two
options `o1` and `o2` commute, that is, running `o1` then `o2` on any builder
from any store ends as running `o2` then `o1` does, then for all option lists
`xs` and `ys` and any two slices holding `xs ++ [o1, o2] ++ ys` and
`xs ++ [o2, o1] ++ ys` that neither `Default` nor any of these options writes
to, `New` over the one returns the same value and error, and leaves the same
store, as `New` over the other. -/
theorem NewShared_commuting_options {σ T B E O : Type} [ZeroValue B] (impl : Builder σ T B E)
    (call : O → B → Exec σ Unit) (o1 o2 : O) (xs ys : List O)
    (elementsA elementsB : σ → List O) (s : σ)
    (hcomm : ∀ b s, applyOptions b [call o1, call o2] s = applyOptions b [call o2, call o1] s)
    (hA : elementsA s = xs ++ [o1, o2] ++ ys)
    (hB : elementsB s = xs ++ [o2, o1] ++ ys)
    (hkeepA : leavesSlice impl call elementsA (xs ++ [o1, o2] ++ ys))
    (hkeepB : leavesSlice impl call elementsB (xs ++ [o2, o1] ++ ys)) :
    NewShared impl call elementsA s = NewShared impl call elementsB s := by
  rw [NewShared_eq_New impl call elementsA s (hA ▸ hkeepA),
    NewShared_eq_New impl call elementsB s (hB ▸ hkeepB), hA, hB]
  simp only [List.map_append, List.map_cons, List.map_nil]
  exact New_commuting_options impl (call o1) (call o2) hcomm (xs.map call) (ys.map call) s

/-- C12, amended, at two assignments to different fields of a `LetterBuilder`:
`WithSalutation("Goodbye")` and `WithAddressee("earth")`, swapped after
`WithAddressee("planet")` and before `WithAddressee("moon")`, in calls that
list their options. -/
theorem NewShared_commuting_options_witness :
    NewShared letterBuilder (fun option => option)
        (fun _ => [WithAddressee "planet"] ++ [WithSalutation "Goodbye", WithAddressee "earth"] ++
          [WithAddressee "moon"]) [] =
      NewShared letterBuilder (fun option => option)
        (fun _ => [WithAddressee "planet"] ++ [WithAddressee "earth", WithSalutation "Goodbye"] ++
          [WithAddressee "moon"]) [] ∧
    NewShared letterBuilder (fun option => option)
        (fun _ => [WithAddressee "planet"] ++ [WithAddressee "earth", WithSalutation "Goodbye"] ++
          [WithAddressee "moon"]) [] =
      .returns ("Goodbye moon!", none) [LetterBuilder.mk "Goodbye" "moon"] ∧
    NewShared letterBuilder (fun option => option)
        (fun _ => [] ++ [WithSalutation "Goodbye", WithAddressee "earth"] ++ []) [] =
      NewShared letterBuilder (fun option => option)
        (fun _ => [] ++ [WithAddressee "earth", WithSalutation "Goodbye"] ++ []) [] ∧
    NewShared letterBuilder (fun option => option)
        (fun _ => [] ++ [WithAddressee "earth", WithSalutation "Goodbye"] ++ []) [] =
      .returns ("Goodbye earth!", none) [LetterBuilder.mk "Goodbye" "earth"] :=
  ⟨NewShared_commuting_options letterBuilder (fun option => option)
      (WithSalutation "Goodbye") (WithAddressee "earth") [WithAddressee "planet"]
      [WithAddressee "moon"] _ _ []
      (WithSalutation_WithAddressee_commute "Goodbye" "earth") rfl rfl
      ⟨fun _ _ _ _ => rfl, fun _ _ _ _ _ _ => rfl⟩ ⟨fun _ _ _ _ => rfl, fun _ _ _ _ _ _ => rfl⟩,
    by decide,
    NewShared_commuting_options letterBuilder (fun option => option)
      (WithSalutation "Goodbye") (WithAddressee "earth") [] [] _ _ []
      (WithSalutation_WithAddressee_commute "Goodbye" "earth") rfl rfl
      ⟨fun _ _ _ _ => rfl, fun _ _ _ _ _ _ => rfl⟩ ⟨fun _ _ _ _ => rfl, fun _ _ _ _ _ _ => rfl⟩,
    by decide⟩

/-- C13: validation happens only in `Build`, on the final builder state.  For
every list of `WithNoun` options (nouns `ns`), the options all return and leave
in the builder the noun of the last one, or `"world"` when there is none; `New`
returns a non-nil error exactly when that noun is empty, and a nil error
exactly when it is not.  `WithNoun` applied to any allocated builder returns,
whatever the noun, the empty one included.  In particular
`New(WithNoun(""), WithNoun("earth"))` is `("Hello earth!", nil)`. -/
theorem New_validates_final_state (ns : List String) (h h1 h3 : Heap) (c : GreetingBuilder)
    (noun : String) :
    configured greetingBuilder (Slice.lit (ns.map WithNoun)) h =
      .returns (Ptr.addr h.length) (h ++ [GreetingBuilder.mk (ns.getLast?.getD "world")]) ∧
    nounOf (Ptr.addr h.length) (h ++ [GreetingBuilder.mk (ns.getLast?.getD "world")]) =
      some (ns.getLast?.getD "world") ∧
    ((∃ t e h2, New greetingBuilder (Slice.lit (ns.map WithNoun)) h = .returns (t, some e) h2) ↔
      ns.getLast?.getD "world" = "") ∧
    ((∃ t h2, New greetingBuilder (Slice.lit (ns.map WithNoun)) h = .returns (t, none) h2) ↔
      ns.getLast?.getD "world" ≠ "") ∧
    WithNoun noun (Ptr.addr h1.length) (h1 ++ c :: h3) =
      .returns () (h1 ++ GreetingBuilder.mk noun :: h3) ∧
    New greetingBuilder (Slice.lit [WithNoun "", WithNoun "earth"]) h =
      .returns ("Hello earth!", none) (h ++ [GreetingBuilder.mk "earth"]) := by
  refine ⟨configured_WithNoun ns h, by simp [nounOf], ?_, ?_, WithNoun_at h1 h3 c noun, ?_⟩
  · rw [New_WithNoun]
    constructor
    · rintro ⟨t, e, h2, hret⟩
      injection hret with hval _
      exact ((greet_error_iff _ t e).mp hval).1
    · intro hempty
      exact ⟨"", "empty noun", _, by rw [(greet_error_iff _ "" "empty noun").mpr ⟨hempty, rfl, rfl⟩]⟩
  · rw [New_WithNoun]
    constructor
    · rintro ⟨t, h2, hret⟩
      injection hret with hval _
      exact ((greet_ok_iff _ t).mp hval).1
    · intro hne
      exact ⟨_, _, by rw [(greet_ok_iff _ _).mpr ⟨hne, rfl⟩]⟩
  · have := New_WithNoun ["", "earth"] h
    simpa [greet] using this

/-- C14: `GreetingBuilder.Build` is a pure function of the builder's noun and
leaves the builder unchanged.  For every pointer `b` to a builder with noun
`n`, `Build` returns `("", error "empty noun")` when `n` is empty and
`("Hello " ++ n ++ "!", nil)` otherwise, whatever else the heap holds; it leaves
the heap, hence the builder's noun, as it was; and a second call of `Build`
on the same builder returns what the first returned. -/
theorem Build_pure (b : Ptr) (h : Heap) (n : String) (hn : nounOf b h = some n) :
    GreetingBuilder.Build b h =
      .returns (if n = "" then ("", some "empty noun") else ("Hello " ++ n ++ "!", none)) h ∧
    (GreetingBuilder.Build b h).store? = some h ∧
    (∀ h2, (GreetingBuilder.Build b h).store? = some h2 → nounOf b h2 = some n) ∧
    (match GreetingBuilder.Build b h with
      | .panics p => .panics p
      | .returns _ h2 => GreetingBuilder.Build b h2) = GreetingBuilder.Build b h := by
  have hbuild : GreetingBuilder.Build b h = .returns (greet n) h := by
    cases b with
    | nil => simp [nounOf] at hn
    | addr a =>
      cases hc : h[a]? with
      | none => simp [nounOf, hc] at hn
      | some c =>
        have hcn : c.noun = n := by simpa [nounOf, hc] using hn
        rw [Build_at h a c hc, hcn]
  refine ⟨hbuild, ?_, ?_, ?_⟩
  · rw [hbuild]; rfl
  · intro h2 hstore
    rw [hbuild] at hstore
    simp only [Outcome.store?, Option.some.injEq] at hstore
    exact hstore ▸ hn
  · rw [hbuild]
    exact hbuild

/-- C14 at a builder with the default noun and at one with the empty noun, the
second cell of a heap of two. -/
theorem Build_pure_witness :
    nounOf (Ptr.addr 0) [GreetingBuilder.mk "world"] = some "world" ∧
    GreetingBuilder.Build (Ptr.addr 0) [GreetingBuilder.mk "world"] =
      .returns ("Hello world!", none) [GreetingBuilder.mk "world"] ∧
    GreetingBuilder.Build (Ptr.addr 1) [GreetingBuilder.mk "world", GreetingBuilder.mk ""] =
      .returns ("", some "empty noun") [GreetingBuilder.mk "world", GreetingBuilder.mk ""] :=
  ⟨by decide,
    (Build_pure (Ptr.addr 0) [GreetingBuilder.mk "world"] "world" (by decide)).1,
    (Build_pure (Ptr.addr 1) [GreetingBuilder.mk "world", GreetingBuilder.mk ""] ""
      (by decide)).1⟩

end Create
